import Mathlib

/-!
# Verification of the gvrun flash image layout engine

This development gives a shallow embedding of the flash image layout engine
of the gvrun repository (files `gvrun/fs/*.py`, `gvrun/chips/gap/rom_v2.py`,
`gvrun/chips/gap/meta_table.py`) and proves properties of it.

Byte sequences are modelled as `List Nat`, each element being one byte value;
machine integers are modelled as `Nat`, with explicit `% 2^w` where overflow
matters.  The `gapylib` layout substrate (`CStruct`, `FlashSection`, `Flash`,
`compute_crc`) is not part of the sources; those definitions are modelled from
the specification and marked as such.
-/

set_option maxRecDepth 100000

namespace Gvrun

/-! ## CRC32 (rom_v2.py `BinarySegment._compute_crc`, gapylib `compute_crc`) -/

/-- One bit step of the CRC loop body of `BinarySegment._compute_crc`
(`rom_v2.py` lines 58-63): shift right by one and xor the reversed
polynomial 0xEDB88320 when the low bit was set. -/
def crcBitStep (crc : Nat) : Nat :=
  if crc &&& 1 = 1 then (crc >>> 1) ^^^ 0xEDB88320 else (crc >>> 1) ^^^ 0

/-- One byte step of the CRC loop of `BinarySegment._compute_crc`
(`rom_v2.py` lines 56-63): xor the byte in, then run eight bit steps. -/
def crcByteStep (crc byte : Nat) : Nat :=
  (List.range 8).foldl (fun c _ => crcBitStep c) (crc ^^^ byte)

/-- Modelled from the spec: `gapylib.utils.compute_crc(seed, data)` is not under
the sources; §4.1 describes it as the standard bit-reversed CRC32 over `data`
started from `seed`, without the final xor.  Its loop body is the one of
`BinarySegment._compute_crc`, which is in the sources. -/
def compute_crc (seed : Nat) (data : List Nat) : Nat :=
  data.foldl crcByteStep seed

/-- `BinarySegment._compute_crc` (`rom_v2.py` lines 51-65 and the identical
`app_bin.py` lines 102-116): CRC from seed 0xFFFFFFFF, with final xor. -/
def segment_compute_crc (data : List Nat) : Nat :=
  (data.foldl crcByteStep 0xffffffff) ^^^ 0xffffffff

/-- The spec's words for one bit step of the standard bit-reversed CRC32
(§4.1, §9): halve the register and xor in the reversed polynomial
0xEDB88320 when the dropped bit was set. -/
def crcBitStepSpec (crc : Nat) : Nat :=
  if crc % 2 = 1 then crc / 2 ^^^ 0xEDB88320 else crc / 2

/-- Iterate the spec's bit step. -/
def crcBitIter : Nat → Nat → Nat
  | 0, c => c
  | n + 1, c => crcBitIter n (crcBitStepSpec c)

/-- The spec's words for the canonical CRC32 (§4.1, §8): standard
bit-reversed CRC32, polynomial 0xEDB88320, one byte xored in at a time and
eight bit steps per byte, initial value 0xFFFFFFFF, final xor 0xFFFFFFFF. -/
def crc32_final_spec (data : List Nat) : Nat :=
  (data.foldl (fun c b => crcBitIter 8 (c ^^^ b)) 0xffffffff) ^^^ 0xffffffff

/-- The ASCII bytes of the string "123456789", the standard CRC32 test
vector input. -/
def testVector123456789 : List Nat := [49, 50, 51, 52, 53, 54, 55, 56, 57]

/-! ## Python bitwise rounding

The sources round a value `x` up to a multiple of `align` with the Python
expression `(x + align - 1) & ~(align - 1)`.  Python integers use unbounded
two's complement, so for nonnegative `p` and `m` the expression `p & ~m`
keeps exactly the bits of `p` that are not set in `m`, which equals
`p - (p &&& m)` on naturals. -/

/-- Python's `p & ~m` for nonnegative `p`, `m`. -/
def pyAndNot (p m : Nat) : Nat := p - (p &&& m)

/-- Python's `(x + align - 1) & ~(align - 1)`, the rounding idiom used by
`writefs.py` (lines 65, 68, 140, 170). -/
def alignUp (x align : Nat) : Nat := pyAndNot (x + align - 1) (align - 1)

/-! ## WriteFs section (`gvrun/fs/writefs.py`)

Substrate modelled from the spec: a `CStruct` child's offset is the running
sum of everything placed before it inside its parent (§2, §3), an unset field
packs as zero bytes, `FlashSection.get_size()` is the section's resolved
`size` property and `current_offset - offset` is the number of content bytes
placed so far.  Only the sizes of the input files matter to the layout, so a
file is modelled by its byte size. -/

/-- One `WriteFsHeader` block as emitted by `WriteFsSection.set_content`.
`relOffset` is the block's offset relative to the section base
(`header.get_offset() - base`); `sizeField`, `next`, `flags`, `magic` are the
values of the corresponding header fields; `isFree` marks the trailing
free-space marker block. -/
structure WriteFsHeader where
  relOffset : Nat
  sizeField : Nat
  next : Nat
  flags : Nat
  magic : Nat
  isFree : Bool
  deriving Repr, DecidableEq, Inhabited

/-- Total byte size of one `WriteFsHeader` block (`writefs.py` lines 49-70):
48 header bytes padded to `align`, then the payload padded to `align`. -/
def writeFsBlockSize (align payload : Nat) : Nat :=
  alignUp 48 align + alignUp payload align

/-- First pass of `WriteFsSection.set_content` (lines 137-153): one header
per file, placed at the running offset, with `size` set to the file size
rounded up to `align`, `magic = 0x3f9b`, `flags = 1` (valid, not empty) and
`next` still at its zero default. -/
def writeFsLayout (align : Nat) : List Nat → Nat → List WriteFsHeader
  | [], _ => []
  | fsize :: rest, cur =>
    let realSize := alignUp fsize align
    { relOffset := cur, sizeField := realSize, next := 0, flags := 1,
      magic := 0x3f9b, isFree := false } ::
      writeFsLayout align rest (cur + writeFsBlockSize align realSize)

/-- Second pass of `WriteFsSection.set_content` (lines 155-158): each header
whose successor exists gets `next` set to the successor's relative offset. -/
def writeFsChain : List WriteFsHeader → List WriteFsHeader
  | [] => []
  | [h] => [h]
  | h :: h2 :: rest => { h with next := h2.relOffset } :: writeFsChain (h2 :: rest)

/-- Number of content bytes placed by the first pass
(`self.current_offset - self.offset`, line 164). -/
def writeFsContentSize (align : Nat) (fileSizes : List Nat) : Nat :=
  (fileSizes.map (fun f => writeFsBlockSize align (alignUp f align))).sum

/-- Overwrite the `next` field of the header at index `i`
(`self.file_headers[i].set_field('next', v)`). -/
def writeFsSetNext : List WriteFsHeader → Nat → Nat → List WriteFsHeader
  | [], _, _ => []
  | h :: rest, 0, v => { h with next := v } :: rest
  | h :: rest, i + 1, v => h :: writeFsSetNext rest i v

/-- The trailing free-space marker block (`writefs.py` lines 166-181):
placed at the end of the content, `size` set by the constructor to the
remaining space minus the aligned header size (rounded up), `next`
0xFFFFFFFF, `flags` valid+empty.  (In the Python, the size subtraction can
go negative; natural subtraction truncates at zero there.) -/
def writeFsFreeHeader (sectionSize contentSize : Nat) : WriteFsHeader :=
  { relOffset := contentSize,
    sizeField := alignUp (sectionSize - contentSize - alignUp 48 sectionSize)
      sectionSize,
    next := 0xffffffff, flags := 3, magic := 0x3f9b, isFree := true }

/-- `WriteFsSection.set_content` (`writefs.py` lines 100-190) restricted to
the data the claims are about.  `sectionSize` is the resolved `size`
property; the code also uses it as the alignment (`self.size_align = size`,
line 132).  `fileSizes` are the sizes of the configured files.  Returns the
emitted header blocks.  (For an empty file list the code returns before
emitting anything.) -/
def writefs_set_content (sectionSize : Nat) (fileSizes : List Nat) : List WriteFsHeader :=
  if fileSizes.isEmpty then [] else
  let align := sectionSize
  let hs := writeFsChain (writeFsLayout align fileSizes 0)
  let contentSize := writeFsContentSize align fileSizes
  if contentSize < sectionSize then
    let emitFree := 128 < sectionSize - contentSize
    let hs2 :=
      if emitFree then hs ++ [writeFsFreeHeader sectionSize contentSize]
      else hs
    let freeOffset := if emitFree then contentSize else 0
    if 1 < hs2.length then writeFsSetNext hs2 (hs2.length - 2) freeOffset else hs2
  else
    writeFsSetNext hs (hs.length - 1) 0xffffffff

/-! ## ROM v2 and app-binary sections (`gvrun/chips/gap/rom_v2.py`,
`gvrun/fs/app_bin.py`)

Only the layout of the emitted blocks matters to claim C1, so an ELF
segment is modelled by its load base and the byte length of the data block
it emits (`rom_v2.py` stores the raw segment data, `app_bin.py` stores
`real_size` bytes of possibly compressed data).

Substrate modelled from the spec: a `CStruct` child's offset is the running
sum of everything placed before it inside its parent, and
`CStruct.add_padding(align)` appends zero bytes until the running end is a
multiple of `align` relative to the flash base (§4.2). -/

/-- One loadable ELF segment: `base` is the target load address,
`dataSize` the length of the data block emitted for it. -/
structure BinSegment where
  base : Nat
  dataSize : Nat
  deriving Repr, DecidableEq, Inhabited

/-- `Xip.is_xip_segment` (`rom_v2.py` line 249-257 and `app_bin.py`
lines 306-314): a segment is XIP iff its base is at or above the XIP
virtual address. -/
def is_xip_segment (vaddr base : Nat) : Bool := decide (vaddr ≤ base)

/-- `CStruct.add_padding`: advance `cur` to the next multiple of `align`. -/
def padToAlign (cur align : Nat) : Nat := cur + (align - cur % align) % align

/-- Place data blocks back to back from `cur`, returning each segment with
the flash offset of its data block. -/
def placeDataBlocks : List BinSegment → Nat → List (BinSegment × Nat)
  | [], _ => []
  | s :: rest, cur => (s, cur) :: placeDataBlocks rest (cur + s.dataSize)

/-- Byte size of `RomHeader` (`rom_v2.py` lines 133-164 and identically
`app_bin.py` lines 188-219): thirteen 4-byte fields plus byte arrays of
1024, 128 and 128 bytes. -/
def romHeaderSize : Nat := 13 * 4 + 1024 + 128 + 128

/-- Byte size of `RomSegmentHeader` (`rom_v2.py` lines 182-193): four
4-byte fields. -/
def romSegmentHeaderSize : Nat := 4 * 4

/-- Byte size of `AppSectionHeader` (`app_bin.py` lines 237-250): five
4-byte fields plus a 32-byte name array. -/
def appSectionHeaderSize : Nat := 5 * 4 + 32

/-- Shared layout logic of `RomFlashSection.set_content` (`rom_v2.py` lines
451-516) and `AppBinarySection.set_content` (`app_bin.py` lines 459-529):
partition the segments into XIP (`base ≥ vaddr`) and static ones, keep the
XIP ones first, lay out the main header then one per-segment header per
segment, pad to an XIP page boundary when at least one XIP segment exists,
then emit the data blocks back to back.  Returns each emitted data block
with its flash offset, in emission order. -/
def romLayoutBlocks (headerSize segHeaderSize : Nat) (offset vaddr pageSize : Nat)
    (segments : List BinSegment) : List (BinSegment × Nat) :=
  let xipSegments := segments.filter (fun s => is_xip_segment vaddr s.base)
  let staticSegments := segments.filter (fun s => ¬ is_xip_segment vaddr s.base)
  let binarySegments := xipSegments ++ staticSegments
  let cur := offset + headerSize + segHeaderSize * binarySegments.length
  let cur := if 0 < xipSegments.length then padToAlign cur pageSize else cur
  placeDataBlocks binarySegments cur

/-- `RomFlashSection.set_content` data-block layout: page size is
`512 << xip_page_size_cmd` (`rom_v2.py` line 230), the XIP virtual address
is the `xip_virtual_address` property. -/
def rom_set_content_blocks (offset pageSizeCmd vaddr : Nat)
    (segments : List BinSegment) : List (BinSegment × Nat) :=
  romLayoutBlocks romHeaderSize romSegmentHeaderSize offset vaddr
    (512 <<< pageSizeCmd) segments

/-- `AppBinarySection.set_content` data-block layout: the XIP parameters are
fixed (`app_bin.py` lines 286-290): page size `512 << 0`, virtual address
`0x20000000`. -/
def app_bin_set_content_blocks (offset : Nat) (segments : List BinSegment) :
    List (BinSegment × Nat) :=
  romLayoutBlocks romHeaderSize appSectionHeaderSize offset 0x20000000
    (512 <<< 0) segments

/-- The layout shape claim C1 asserts: the emitted data blocks are the XIP
segments followed by the static segments, both groups in original relative
order, the first data block starts at a multiple of the XIP page size, and
consecutive data blocks are adjacent (so the XIP blocks form one contiguous
byte range starting on a page boundary). -/
def xipContiguousLayout (vaddr pageSize : Nat) (segs : List BinSegment)
    (L : List (BinSegment × Nat)) : Prop :=
  L.map Prod.fst = segs.filter (fun s => is_xip_segment vaddr s.base) ++
      segs.filter (fun s => ¬ is_xip_segment vaddr s.base) ∧
  (L.getD 0 default).2 % pageSize = 0 ∧
  (∀ j, j + 1 < L.length →
    (L.getD (j + 1) default).2 =
      (L.getD j default).2 + (L.getD j default).1.dataSize)

/-! ## Partition table v2 (`gvrun/fs/partition_v2.py`)

Substrate modelled from the spec: `CStruct` integer fields pack
little-endian (§6) and unset fields pack as zero bytes. -/

/-- Little-endian bytes of a 16-bit field (`struct` format `H`). -/
def le16 (v : Nat) : List Nat := [v % 256, v / 256 % 256]

/-- Little-endian bytes of a 32-bit field (`struct` format `I`). -/
def le32 (v : Nat) : List Nat :=
  [v % 256, v / 2 ^ 8 % 256, v / 2 ^ 16 % 256, v / 2 ^ 24 % 256]

/-- What the partition table reads from one flash section: its partition
type and subtype, assigned offset and size, and the owning flash's
interface, chip select and flash type. -/
structure PtSection where
  ptype : Nat
  subtype : Nat
  offset : Nat
  size : Nat
  itf : Nat
  cs : Nat
  flashType : Nat
  deriving Repr, DecidableEq, Inhabited

/-- `PartitionTableSectionHeader.append_fields` (`partition_v2.py` lines
138-159) for a real section record, with the field values set by
`finalize` (lines 283-294): `uuid = section_id`, `flags` and `crc_payload`
never set (zero), `max_size = size`, 7 zero padding bytes. -/
def ptRecordBytes (section_id : Nat) (s : PtSection) : List Nat :=
  le16 section_id ++ [s.ptype % 256] ++ [s.subtype % 256] ++ le16 0 ++
    [s.flashType % 256] ++ [s.itf % 256] ++ [s.cs % 256] ++
    le32 s.offset ++ le32 s.size ++ le32 s.size ++ le32 0 ++
    List.replicate 7 0

/-- Number of placeholder records added by
`PartitionTableSectionV2.set_content` (lines 247-255): the header is 16
bytes and each record 32 bytes, and the remaining requested table budget is
divided into 32-byte slots. -/
def ptDiff (n : Nat) (requestSize : Option Nat) : Nat :=
  match requestSize with
  | none => 0
  | some r => if 16 + 32 * n < r then (r - (16 + 32 * n)) / 32 else 0

/-- The `byte_field` accumulation of `PartitionTableSectionV2.finalize`
(lines 281-305): iterate over all section headers (real ones modelled as
`some`, placeholders as `none`) with their index; only the `section_id <
len(sections)` branch appends `append_fields()` to `byte_field`
(line 294) — the placeholder branch appends nothing. -/
def ptByteField : List (Option PtSection) → Nat → List Nat
  | [], _ => []
  | some s :: rest, i => ptRecordBytes i s ++ ptByteField rest (i + 1)
  | none :: rest, i => ptByteField rest (i + 1)

/-- The section-record area serialized from the real sections only. -/
def ptRealBytes : List PtSection → Nat → List Nat
  | [], _ => []
  | s :: rest, i => ptRecordBytes i s ++ ptRealBytes rest (i + 1)

/-- `PartitionTableV2Header.get_crc` input bytes (`partition_v2.py` lines
60-76): magic number, version, entry counts, flags and `crc_table` — the
`crc_header` and `padding` fields are not included. -/
def ptHeaderCrcBytes (nb nbMax crcTable : Nat) : List Nat :=
  le16 0x02BA ++ [2] ++ [nb % 256] ++ [nbMax % 256] ++ le16 0 ++ le32 crcTable

/-- Result fields of `PartitionTableSectionV2.finalize`. -/
structure PtFinal where
  nbEntries : Nat
  nbEntriesMax : Nat
  crcTable : Nat
  crcHeader : Nat
  deriving Repr, DecidableEq

/-- `PartitionTableSectionV2.finalize` (`partition_v2.py` lines 260-308):
fill the header counts, serialize the real section records into
`byte_field`, store its CRC (seed 0xFFFFFFFF) in `crc_table`, then store
the header's own CRC in `crc_header`. -/
def pt_finalize (sections : List PtSection) (requestSize : Option Nat) : PtFinal :=
  let n := sections.length
  let diff := ptDiff n requestSize
  let byteField := ptByteField (sections.map some ++ List.replicate diff none) 0
  let crcTable := compute_crc 0xFFFFFFFF byteField
  { nbEntries := n
    nbEntriesMax := n + diff
    crcTable := crcTable
    crcHeader := compute_crc 0xFFFFFFFF (ptHeaderCrcBytes n (n + diff) crcTable) }

/-! ## Secret storage section (`gvrun/fs/secret_storage.py`) -/

/-- `SecretStorageKC.kc_size_compute` (`secret_storage.py` lines 140-153):
`36 + math.floor(source_size / 8) + 16 * math.ceil(source_size / 384)`; on
natural numbers the floor is `source_size / 8` and the ceiling is
`(source_size + 383) / 384`. -/
def kc_size_compute (source_size : Nat) : Nat :=
  36 + source_size / 8 + 16 * ((source_size + 383) / 384)

/-- Stored `kc_size` field of a `SecretStorageKC` (lines 105-117): the
wrapped formula when the `flags` argument is true, otherwise
`source_size // 8` rounded up to the next 16-byte multiple. -/
def kcStoredSize (wrapped : Bool) (source_size : Nat) : Nat :=
  if wrapped then kc_size_compute source_size
  else
    let kc_size := source_size / 8
    if kc_size % 16 ≠ 0 then kc_size + (16 - kc_size % 16) else kc_size

/-- Byte size of the whole key-code record (lines 114-128): the 2-byte
`kc_size` field, the `kc_so_id` and `flags` bytes, the `kc` payload of
`kc_size` bytes and `padding1` of `16 - ((kc_size + 4) % 16)` bytes. -/
def kcRecordSize (wrapped : Bool) (source_size : Nat) : Nat :=
  2 + 1 + 1 + kcStoredSize wrapped source_size +
    (16 - (kcStoredSize wrapped source_size + 4) % 16)

/-- Wrapped-flag auto-selection in `SecretStorageSection.set_content`
(lines 285-289): when the descriptor gives no `wrapped` value, sizes above
1023 select unwrapped and everything else wrapped. -/
def kcSelectWrapped (wrapped : Option Bool) (size : Nat) : Bool :=
  match wrapped with
  | some b => b
  | none => if 1023 < size then false else true

/-- Per-key-code processing of `SecretStorageSection.set_content`
(lines 278-296): a key-code explicitly configured as wrapped whose size is
neither a multiple of 1024 (when above 1023) nor a multiple of 64 (when
below 1024) raises a size-validation `RuntimeError`; every other key-code
is emitted with the stored size selected by the (possibly auto-selected)
wrapped flag. -/
def kcProcess (wrapped : Option Bool) (size : Nat) : Except String Nat :=
  if wrapped = some true ∧
      ((1023 < size ∧ size % 1024 ≠ 0) ∨ (size < 1024 ∧ size % 64 ≠ 0)) then
    Except.error "size is to big for wrapping, max is 4096"
  else
    Except.ok (kcStoredSize (kcSelectWrapped wrapped size) size)

/-- The `kc_list` loop of `SecretStorageSection.set_content`: process the
key-code descriptors in order, failing on the first invalid one. -/
def secret_storage_set_content_kcs :
    List (Option Bool × Nat) → Except String (List Nat)
  | [] => Except.ok []
  | (w, s) :: rest =>
    match kcProcess w s with
    | Except.error e => Except.error e
    | Except.ok k =>
      match secret_storage_set_content_kcs rest with
      | Except.error e => Except.error e
      | Except.ok ks => Except.ok (k :: ks)

/-! ## Recovery meta table (`gvrun/chips/gap/meta_table.py`) -/

/-- Modelled from the spec: `Flash.get_section_by_name` resolves a name
against the flash's section registry (§4.6); a registered section is
modelled by its name and assigned offset. -/
def get_section_by_name (sections : List (String × Nat)) (name : String) :
    Option Nat :=
  (sections.find? (fun p => p.1 == name)).map Prod.snd

/-- The four configured name properties of `FsblMetaTableSection`
(`meta_table.py` lines 145-156). -/
structure MetaProps where
  ssbl_a : Option String
  ssbl_b : Option String
  pt_a : Option String
  pt_b : Option String

/-- The four pointer fields the meta table's `finalize` fills in. -/
structure MetaTableFields where
  ssbl_a_addr : Nat
  ssbl_b_addr : Nat
  pt_a_addr : Nat
  pt_b_addr : Nat
  deriving Repr, DecidableEq

/-- One resolution step of `FsblMetaTableSection.finalize` (lines 220-239):
keep `cur` (the sentinel) when the property is unset or no section with
that name exists, otherwise take the found section's offset. -/
def metaResolveStep (sections : List (String × Nat)) (name : Option String)
    (cur : Nat) : Nat :=
  match name with
  | none => cur
  | some nm =>
    match get_section_by_name sections nm with
    | none => cur
    | some off => off

/-- `FsblMetaTableSection.finalize` (lines 210-243): all four pointers are
first set to the sentinel 0xDEADBEEF, then each is overwritten with the
offset of the same-named section when one resolves. -/
def meta_finalize (sections : List (String × Nat)) (props : MetaProps) :
    MetaTableFields :=
  { ssbl_a_addr := metaResolveStep sections props.ssbl_a 0xDEADBEEF
    ssbl_b_addr := metaResolveStep sections props.ssbl_b 0xDEADBEEF
    pt_a_addr := metaResolveStep sections props.pt_a 0xDEADBEEF
    pt_b_addr := metaResolveStep sections props.pt_b 0xDEADBEEF }

/-- `FsblMetaTableSection.is_empty` (lines 245-247). -/
def meta_is_empty : Bool := false

/-! ## Volume table (`gvrun/fs/volume_table.py`) -/

/-- What the volume table reads from one flash section: its name and
partition type. -/
structure VtSection where
  name : String
  ptype : Nat
  deriving Repr, DecidableEq

/-- Modelled from the spec: setting a byte-array field stores the given
bytes zero-padded to the field length (unset bytes pack as zero). -/
def setFieldBytes (len : Nat) (b : List Nat) : List Nat :=
  (b ++ List.replicate len 0).take len

/-- UTF-8 bytes of a string (`name.encode('utf-8')`). -/
def strBytes (s : String) : List Nat :=
  s.toUTF8.toList.map (fun c => c.toNat)

/-- One `VolumeEntry` of the volume table (`volume_table.py` lines
130-138). -/
structure VolEntry where
  uuid : Nat
  flags : Nat
  label : List Nat
  deriving Repr, DecidableEq

/-- A real volume entry built by `volumes_default_init` (lines 246-249 and
269-272): `uuid` is the section's index, the label its name. -/
def mkVolEntry (i : Nat) (s : VtSection) : VolEntry :=
  { uuid := i, flags := 0, label := setFieldBytes 16 (strBytes s.name ++ [0]) }

/-- A reserved placeholder entry (lines 258-263 and 279-284): `uuid = 0`,
zero label, zero flags. -/
def zeroVolEntry : VolEntry :=
  { uuid := 0, flags := 0, label := setFieldBytes 16 (List.replicate 16 0) }

/-- One `VolumeHeader` of the volume table (lines 89-103). -/
structure VolHeader where
  uuid : Nat
  flags : Nat
  label : List Nat
  nb_partitions : Nat
  max_nb_partitions : Nat
  boot_order : Nat
  boot_count : Nat
  deriving Repr, DecidableEq

/-- The "app" entry loop of `volumes_default_init` (lines 244-251): one
entry per enumerated section whose partition type is not 0x02. -/
def volAppEntriesLoop : List (Nat × VtSection) → List VolEntry
  | [] => []
  | (i, s) :: rest =>
    if s.ptype ≠ 2 then mkVolEntry i s :: volAppEntriesLoop rest
    else volAppEntriesLoop rest

/-- The "factory" entry loop of `volumes_default_init` (lines 267-274): one
entry per enumerated section whose partition type is 0x02. -/
def volFactoryEntriesLoop : List (Nat × VtSection) → List VolEntry
  | [] => []
  | (i, s) :: rest =>
    if s.ptype = 2 then mkVolEntry i s :: volFactoryEntriesLoop rest
    else volFactoryEntriesLoop rest

/-- Result of `VolumeTableSection.volumes_default_init`. -/
structure VolumesDefault where
  volume_app : VolHeader
  volume_app_entries : List VolEntry
  volume_factory : VolHeader
  volume_factory_entries : List VolEntry
  volumes_list_length : Nat

/-- `VolumeTableSection.volumes_default_init` (`volume_table.py` lines
235-287), run by `set_content` when no `volumes` property is configured
(lines 312-313): the "app" volume (uuid 0, bootable flag set) collects all
sections of partition type ≠ 0x02 plus 4 placeholder entries; the
"factory" volume (uuid 1, flags never set) collects the sections of
partition type 0x02 plus 4 placeholder entries. -/
def volumes_default_init (sections : List VtSection) : VolumesDefault :=
  let appReal := volAppEntriesLoop sections.enum
  let facReal := volFactoryEntriesLoop sections.enum
  { volume_app :=
      { uuid := 0, flags := 1, label := setFieldBytes 16 (strBytes "app" ++ [0])
        nb_partitions := appReal.length
        max_nb_partitions := appReal.length + 4
        boot_order := 0, boot_count := 0 }
    volume_app_entries := appReal ++ List.replicate 4 zeroVolEntry
    volume_factory :=
      { uuid := 1, flags := 0
        label := setFieldBytes 16 (strBytes "factory" ++ [0])
        nb_partitions := facReal.length
        max_nb_partitions := facReal.length + 4
        boot_order := 0, boot_count := 0 }
    volume_factory_entries := facReal ++ List.replicate 4 zeroVolEntry
    volumes_list_length := 2 }

/-! ## ROM section emptiness (`gvrun/chips/gap/rom_v2.py`) -/

/-- A parsed ROM binary (`rom_v2.py` lines 71-91): entry point and loadable
segments. -/
structure RomBinary where
  entry : Nat
  segments : List BinSegment
  deriving Repr

/-- `RomFlashSection.is_empty` (`rom_v2.py` lines 551-553): the section is
empty when no binary is configured or the `boot` property is false. -/
def rom_is_empty (binary : Option RomBinary) (boot : Bool) : Bool :=
  binary.isNone || !boot

/-! ## Theorems -/

/-- For a power-of-two alignment, `alignUp` is ordinary round-up division. -/
theorem alignUp_two_pow (x k : Nat) :
    alignUp x (2 ^ k) = 2 ^ k * ((x + 2 ^ k - 1) / 2 ^ k) := by
  unfold alignUp pyAndNot
  rw [Nat.and_pow_two_sub_one_eq_mod]
  have h := Nat.div_add_mod (x + 2 ^ k - 1) (2 ^ k)
  omega

theorem alignUp_two_pow_mod (x k : Nat) : alignUp x (2 ^ k) % 2 ^ k = 0 := by
  rw [alignUp_two_pow]
  exact Nat.mul_mod_right _ _

theorem le_alignUp_two_pow (x k : Nat) : x ≤ alignUp x (2 ^ k) := by
  rw [alignUp_two_pow]
  have hp : 0 < 2 ^ k := Nat.pos_pow_of_pos k (by omega)
  have h := Nat.div_add_mod (x + 2 ^ k - 1) (2 ^ k)
  have h2 := Nat.mod_lt (x + 2 ^ k - 1) hp
  omega

theorem alignUp_two_pow_pos (x k : Nat) (hx : 0 < x) : 2 ^ k ≤ alignUp x (2 ^ k) := by
  have h := le_alignUp_two_pow x k
  have h2 := alignUp_two_pow_mod x k
  have hp : 0 < 2 ^ k := Nat.pos_pow_of_pos k (by omega)
  rcases Nat.lt_or_ge (alignUp x (2 ^ k)) (2 ^ k) with hlt | hge
  · rw [Nat.mod_eq_of_lt hlt] at h2
    omega
  · exact hge

/-! ### CRC32 theorems -/

theorem crcBitStep_eq_spec (c : Nat) : crcBitStep c = crcBitStepSpec c := by
  unfold crcBitStep crcBitStepSpec
  rw [Nat.and_one_is_mod, Nat.shiftRight_one, Nat.xor_zero]

theorem crcByteStep_eq_spec (c b : Nat) :
    crcByteStep c b = crcBitIter 8 (c ^^^ b) := by
  show (List.range 8).foldl (fun c _ => crcBitStep c) (c ^^^ b) = _
  have h8 : List.range 8 = [0, 1, 2, 3, 4, 5, 6, 7] := rfl
  simp only [h8, List.foldl_cons, List.foldl_nil, crcBitIter, crcBitStep_eq_spec]

/-- Claim C4: the per-segment CRC computation
(`BinarySegment._compute_crc`, identical in `rom_v2.py` and `app_bin.py`)
is deterministic, implements the standard bit-reversed CRC32 (polynomial
0xEDB88320, initial value 0xFFFFFFFF, final xor 0xFFFFFFFF), and maps the
bytes of "123456789" to 0xCBF43926. -/
theorem segment_crc_correct :
    (∀ b : List Nat, segment_compute_crc b = segment_compute_crc b) ∧
    (∀ b : List Nat, segment_compute_crc b = crc32_final_spec b) ∧
    segment_compute_crc testVector123456789 = 0xCBF43926 := by
  refine ⟨fun b => rfl, fun b => ?_, by decide⟩
  unfold segment_compute_crc crc32_final_spec
  have hf : ∀ (l : List Nat) (s : Nat),
      l.foldl crcByteStep s = l.foldl (fun c b => crcBitIter 8 (c ^^^ b)) s := by
    intro l
    induction l with
    | nil => intro s; rfl
    | cons x rest ih =>
      intro s
      simp only [List.foldl_cons, crcByteStep_eq_spec, ih]
  rw [hf]

/-! ### WriteFs helper lemmas -/

theorem writeFsLayout_length (align : Nat) (fs : List Nat) (cur : Nat) :
    (writeFsLayout align fs cur).length = fs.length := by
  induction fs generalizing cur with
  | nil => rfl
  | cons f rest ih => simp [writeFsLayout, ih]

theorem writeFsChain_length (hs : List WriteFsHeader) :
    (writeFsChain hs).length = hs.length := by
  induction hs with
  | nil => rfl
  | cons h rest ih =>
    cases rest with
    | nil => rfl
    | cons h2 rest2 => simpa [writeFsChain] using ih

theorem writeFsSetNext_length (hs : List WriteFsHeader) (i v : Nat) :
    (writeFsSetNext hs i v).length = hs.length := by
  induction hs generalizing i with
  | nil => rfl
  | cons h rest ih =>
    cases i with
    | zero => rfl
    | succ j => simpa [writeFsSetNext] using ih j

/-- Anything the chaining pass emits differs from an input header only in its
`next` field. -/
theorem mem_writeFsChain {P : WriteFsHeader → Prop}
    (hP : ∀ h v, P h → P { h with next := v }) :
    ∀ hs : List WriteFsHeader, (∀ h ∈ hs, P h) → ∀ h ∈ writeFsChain hs, P h := by
  intro hs
  induction hs with
  | nil => intro _ h hm; simp [writeFsChain] at hm
  | cons h1 rest ih =>
    cases rest with
    | nil =>
      intro hin h hm
      simp only [writeFsChain, List.mem_singleton] at hm
      subst hm
      exact hin _ (by simp)
    | cons h2 rest2 =>
      intro hin h hm
      simp only [writeFsChain, List.mem_cons] at hm
      rcases hm with hm | hm
      · subst hm
        exact hP _ _ (hin _ (by simp))
      · exact ih (fun x hx => hin x (List.mem_cons_of_mem _ hx)) h hm

theorem mem_writeFsSetNext {P : WriteFsHeader → Prop}
    (hP : ∀ h v, P h → P { h with next := v }) :
    ∀ (hs : List WriteFsHeader) (i v : Nat), (∀ h ∈ hs, P h) →
      ∀ h ∈ writeFsSetNext hs i v, P h := by
  intro hs
  induction hs with
  | nil => intro i v _ h hm; simp [writeFsSetNext] at hm
  | cons h1 rest ih =>
    intro i v hin h hm
    cases i with
    | zero =>
      simp only [writeFsSetNext, List.mem_cons] at hm
      rcases hm with hm | hm
      · subst hm; exact hP _ _ (hin _ (by simp))
      · exact hin h (List.mem_cons_of_mem _ hm)
    | succ j =>
      simp only [writeFsSetNext, List.mem_cons] at hm
      rcases hm with hm | hm
      · subst hm; exact hin _ (by simp)
      · exact ih j v (fun x hx => hin x (List.mem_cons_of_mem _ hx)) h hm

theorem add_mod_zero {a b n : Nat} (ha : a % n = 0) (hb : b % n = 0) :
    (a + b) % n = 0 := by
  rw [Nat.add_mod, ha, hb]
  simp

/-- Every header placed by the first pass at an offset that is a multiple of
the power-of-two alignment stays aligned, and its `size` field is aligned. -/
theorem writeFsLayout_aligned (k : Nat) (fs : List Nat) (cur : Nat)
    (hcur : cur % 2 ^ k = 0) :
    ∀ h ∈ writeFsLayout (2 ^ k) fs cur,
      h.relOffset % 2 ^ k = 0 ∧ h.sizeField % 2 ^ k = 0 := by
  induction fs generalizing cur with
  | nil => intro h hm; simp [writeFsLayout] at hm
  | cons f rest ih =>
    intro h hm
    simp only [writeFsLayout, List.mem_cons] at hm
    rcases hm with hm | hm
    · subst hm
      exact ⟨hcur, alignUp_two_pow_mod f k⟩
    · refine ih _ ?_ h hm
      exact add_mod_zero hcur
        (add_mod_zero (alignUp_two_pow_mod 48 k) (alignUp_two_pow_mod (alignUp f (2 ^ k)) k))

theorem writeFsContentSize_aligned (k : Nat) (fs : List Nat) :
    writeFsContentSize (2 ^ k) fs % 2 ^ k = 0 := by
  induction fs with
  | nil => simp [writeFsContentSize]
  | cons f rest ih =>
    simp only [writeFsContentSize, List.map_cons, List.sum_cons] at ih ⊢
    exact add_mod_zero
      (add_mod_zero (alignUp_two_pow_mod 48 k) (alignUp_two_pow_mod (alignUp f (2 ^ k)) k)) ih

theorem listGetD_append_lt {α : Type} (l : List α) (x d : α) (i : Nat)
    (h : i < l.length) : (l ++ [x]).getD i d = l.getD i d := by
  induction l generalizing i with
  | nil => simp at h
  | cons a rest ih =>
    cases i with
    | zero => rfl
    | succ j => simpa using ih j (by simpa using h)

theorem listGetD_append_len {α : Type} (l : List α) (x d : α) :
    (l ++ [x]).getD l.length d = x := by
  induction l with
  | nil => rfl
  | cons a rest ih => simp only [List.cons_append, List.length_cons, List.getD_cons_succ, ih]

/-- Every header placed by the first pass still has its `next` field at the
zero default. -/
theorem writeFsLayout_getD_next (align : Nat) (fs : List Nat) (cur i : Nat)
    (h : i < fs.length) :
    ((writeFsLayout align fs cur).getD i default).next = 0 := by
  induction fs generalizing cur i with
  | nil => simp at h
  | cons f rest ih =>
    cases i with
    | zero => rfl
    | succ j => simpa [writeFsLayout] using ih _ j (by simpa using h)

/-- The chaining pass never touches the final header. -/
theorem writeFsChain_getD_last (hs : List WriteFsHeader) (d : WriteFsHeader) :
    (writeFsChain hs).getD (hs.length - 1) d = hs.getD (hs.length - 1) d := by
  induction hs with
  | nil => rfl
  | cons h1 rest ih =>
    cases rest with
    | nil => rfl
    | cons h2 rest2 => simpa [writeFsChain] using ih

theorem writeFsChain_getD_relOffset (hs : List WriteFsHeader) (i : Nat)
    (d : WriteFsHeader) :
    ((writeFsChain hs).getD i d).relOffset = (hs.getD i d).relOffset := by
  induction hs generalizing i with
  | nil => rfl
  | cons h1 rest ih =>
    cases rest with
    | nil => rfl
    | cons h2 rest2 =>
      cases i with
      | zero => rfl
      | succ j => simpa [writeFsChain] using ih j

theorem writeFsChain_getD_next (hs : List WriteFsHeader) (i : Nat)
    (hlt : i + 1 < hs.length) :
    ((writeFsChain hs).getD i default).next = (hs.getD (i + 1) default).relOffset := by
  induction hs generalizing i with
  | nil => simp at hlt
  | cons h1 rest ih =>
    cases rest with
    | nil => simp at hlt
    | cons h2 rest2 =>
      cases i with
      | zero => rfl
      | succ j =>
        have := ih j (by simpa using hlt)
        simpa [writeFsChain] using this

theorem writeFsSetNext_getD_relOffset (hs : List WriteFsHeader) (i j v : Nat)
    (d : WriteFsHeader) :
    ((writeFsSetNext hs j v).getD i d).relOffset = (hs.getD i d).relOffset := by
  induction hs generalizing i j with
  | nil => rfl
  | cons h1 rest ih =>
    cases j with
    | zero => cases i with
      | zero => rfl
      | succ i2 => rfl
    | succ j2 => cases i with
      | zero => rfl
      | succ i2 => simpa [writeFsSetNext] using ih i2 j2

theorem writeFsSetNext_getD_ne (hs : List WriteFsHeader) (i j v : Nat)
    (hne : i ≠ j) (d : WriteFsHeader) :
    (writeFsSetNext hs j v).getD i d = hs.getD i d := by
  induction hs generalizing i j with
  | nil => rfl
  | cons h1 rest ih =>
    cases j with
    | zero => cases i with
      | zero => exact absurd rfl hne
      | succ i2 => rfl
    | succ j2 => cases i with
      | zero => rfl
      | succ i2 => simpa [writeFsSetNext] using ih i2 j2 (by omega)

theorem writeFsSetNext_getD_eq (hs : List WriteFsHeader) (j v : Nat)
    (hlt : j < hs.length) :
    ((writeFsSetNext hs j v).getD j default).next = v := by
  induction hs generalizing j with
  | nil => simp at hlt
  | cons h1 rest ih =>
    cases j with
    | zero => rfl
    | succ j2 => simpa [writeFsSetNext] using ih j2 (by simpa using hlt)

theorem writeFsLayout_isFree (align : Nat) (fs : List Nat) (cur : Nat) :
    ∀ h ∈ writeFsLayout align fs cur, h.isFree = false := by
  induction fs generalizing cur with
  | nil => intro h hm; simp [writeFsLayout] at hm
  | cons f rest ih =>
    intro h hm
    simp only [writeFsLayout, List.mem_cons] at hm
    rcases hm with hm | hm
    · subst hm; rfl
    · exact ih _ h hm

/-- Claim C5 (amended): for every WriteFs section whose configured
alignment (the resolved `size` property, which `writefs.py` line 132 uses
as `size_align`) is a power of two, every emitted file header sits at an
offset relative to the section base that is a multiple of the alignment,
and its `size` field is a multiple of the alignment.  (The Python rounding
idiom `(x + a - 1) & ~(a - 1)` only rounds up to a multiple of `a` when `a`
is a power of two, so the invariant fails for other alignments.) -/
theorem writefs_header_alignment (S k : Nat) (hS : S = 2 ^ k)
    (fileSizes : List Nat) :
    ∀ h ∈ writefs_set_content S fileSizes,
      h.relOffset % S = 0 ∧ h.sizeField % S = 0 := by
  subst hS
  intro h hm
  unfold writefs_set_content at hm
  by_cases hemp : fileSizes.isEmpty
  · simp [hemp] at hm
  · simp only [hemp, Bool.false_eq_true, if_false] at hm
    have hbase : ∀ x ∈ writeFsChain (writeFsLayout (2 ^ k) fileSizes 0),
        x.relOffset % 2 ^ k = 0 ∧ x.sizeField % 2 ^ k = 0 := by
      exact mem_writeFsChain (fun x v hx => hx) _
        (writeFsLayout_aligned k fileSizes 0 (Nat.zero_mod _))
    by_cases hlt : writeFsContentSize (2 ^ k) fileSizes < 2 ^ k
    · simp only [hlt, if_true] at hm
      by_cases hfree : 128 < 2 ^ k - writeFsContentSize (2 ^ k) fileSizes
      · simp only [hfree, if_true] at hm
        have hbase2 : ∀ x ∈ writeFsChain (writeFsLayout (2 ^ k) fileSizes 0) ++
            [{ relOffset := writeFsContentSize (2 ^ k) fileSizes,
               sizeField := alignUp (2 ^ k - writeFsContentSize (2 ^ k) fileSizes -
                 alignUp 48 (2 ^ k)) (2 ^ k),
               next := 0xffffffff, flags := 3, magic := 0x3f9b,
               isFree := true }], x.relOffset % 2 ^ k = 0 ∧ x.sizeField % 2 ^ k = 0 := by
          intro x hx
          rcases List.mem_append.mp hx with hx | hx
          · exact hbase x hx
          · simp only [List.mem_singleton] at hx
            subst hx
            exact ⟨writeFsContentSize_aligned k fileSizes, alignUp_two_pow_mod _ k⟩
        split at hm
        · exact mem_writeFsSetNext (fun x v hx => hx) _ _ _ hbase2 h hm
        · exact hbase2 h hm
      · simp only [hfree, if_false] at hm
        split at hm
        · exact mem_writeFsSetNext (fun x v hx => hx) _ _ _ hbase h hm
        · exact hbase h hm
    · simp only [hlt, if_false] at hm
      exact mem_writeFsSetNext (fun x v hx => hx) _ _ _ hbase h hm

/-- Witness for C5 at the spec's scenario: 4096-byte alignment, files of 10
and 4100 bytes. -/
theorem writefs_header_alignment_witness :
    ((writefs_set_content 4096 [10, 4100]).getD 0 default).relOffset % 4096 = 0 ∧
    ((writefs_set_content 4096 [10, 4100]).getD 0 default).sizeField % 4096 = 0 :=
  writefs_header_alignment 4096 12 (by norm_num) [10, 4100] _ (by decide)

/-- Counterexample to claim C5 as stated: with the (non-power-of-two)
alignment 4000 and two 10-byte files, the first emitted header's `size`
field is 32 and the second header sits at relative offset 96 — neither a
multiple of the alignment. -/
theorem writefs_header_alignment_counterexample :
    ((writefs_set_content 4000 [10, 10]).getD 0 default).sizeField % 4000 ≠ 0 ∧
    ((writefs_set_content 4000 [10, 10]).getD 1 default).relOffset % 4000 ≠ 0 := by
  decide

/-- Counterexample to claim C3 as stated: with section size 300 and two
10-byte files the packed content (200 bytes) leaves 100 bytes, at most the
128-byte threshold, so no free-space marker block is emitted; but the first
header's `next` is overwritten with 0 instead of the second header's
relative offset 100, and the last header's `next` stays at its zero default
instead of the sentinel 0xFFFFFFFF. -/
theorem writefs_next_chain_counterexample :
    (writefs_set_content 300 [10, 10]).length = 2 ∧
    ((writefs_set_content 300 [10, 10]).getD 0 default).isFree = false ∧
    ((writefs_set_content 300 [10, 10]).getD 1 default).isFree = false ∧
    ((writefs_set_content 300 [10, 10]).getD 0 default).next ≠
      ((writefs_set_content 300 [10, 10]).getD 1 default).relOffset ∧
    ((writefs_set_content 300 [10, 10]).getD 1 default).next ≠ 0xffffffff := by
  decide

/-- Claim C3 (amended): for a WriteFs section with `n ≥ 1` files (alignment
the resolved `size` property), three regimes.  When the remaining section
space exceeds the 128-byte threshold, a trailing free-space marker block is
emitted, every non-last real header's `next` is the relative offset of its
successor, and the last real header's `next` is the relative offset of the
free block.  When the content exactly fills or exceeds the section, only
the `n` real headers are emitted, the chain is intact, and the last
header's `next` is the sentinel 0xFFFFFFFF.  But when the remaining space
is positive and at most 128 bytes, no free block is emitted and the chain
is corrupted instead of terminated: the second-to-last header's `next` (for
`n ≥ 2`) is overwritten with 0 and the last header's `next` keeps its zero
default rather than the sentinel. -/
theorem writefs_next_chain (S : Nat) (fileSizes : List Nat)
    (hne : fileSizes ≠ []) :
    (writeFsContentSize S fileSizes < S →
      (128 < S - writeFsContentSize S fileSizes →
        (writefs_set_content S fileSizes).length = fileSizes.length + 1 ∧
        ((writefs_set_content S fileSizes).getD fileSizes.length default).isFree
          = true ∧
        ((writefs_set_content S fileSizes).getD fileSizes.length default).relOffset
          = writeFsContentSize S fileSizes ∧
        ((writefs_set_content S fileSizes).getD fileSizes.length default).next
          = 0xffffffff ∧
        (∀ i, i + 1 < fileSizes.length →
          ((writefs_set_content S fileSizes).getD i default).next =
            ((writefs_set_content S fileSizes).getD (i + 1) default).relOffset) ∧
        ((writefs_set_content S fileSizes).getD (fileSizes.length - 1) default).next
          = ((writefs_set_content S fileSizes).getD fileSizes.length default).relOffset) ∧
      (¬ 128 < S - writeFsContentSize S fileSizes →
        (writefs_set_content S fileSizes).length = fileSizes.length ∧
        (∀ h ∈ writefs_set_content S fileSizes, h.isFree = false) ∧
        (∀ i, i + 2 < fileSizes.length →
          ((writefs_set_content S fileSizes).getD i default).next =
            ((writefs_set_content S fileSizes).getD (i + 1) default).relOffset) ∧
        (1 < fileSizes.length →
          ((writefs_set_content S fileSizes).getD
            (fileSizes.length - 2) default).next = 0) ∧
        ((writefs_set_content S fileSizes).getD (fileSizes.length - 1) default).next
          = 0)) ∧
    (¬ writeFsContentSize S fileSizes < S →
      (writefs_set_content S fileSizes).length = fileSizes.length ∧
      (∀ h ∈ writefs_set_content S fileSizes, h.isFree = false) ∧
      (∀ i, i + 1 < fileSizes.length →
        ((writefs_set_content S fileSizes).getD i default).next =
          ((writefs_set_content S fileSizes).getD (i + 1) default).relOffset) ∧
      ((writefs_set_content S fileSizes).getD (fileSizes.length - 1) default).next
        = 0xffffffff) := by
  obtain ⟨f, rest, rfl⟩ := List.exists_cons_of_ne_nil hne
  have hlen0 : (writeFsLayout S (f :: rest) 0).length = (f :: rest).length :=
    writeFsLayout_length S (f :: rest) 0
  have hlen : (writeFsChain (writeFsLayout S (f :: rest) 0)).length =
      (f :: rest).length := by
    rw [writeFsChain_length, hlen0]
  refine ⟨fun hlt => ⟨fun hfree => ?_, fun hnofree => ?_⟩, fun hge => ?_⟩
  · -- free-space marker block emitted
    have hA : (writeFsChain (writeFsLayout S (f :: rest) 0) ++
        [writeFsFreeHeader S (writeFsContentSize S (f :: rest))]).length =
        (f :: rest).length + 1 := by
      rw [List.length_append, hlen]
      rfl
    have hgt1 : 1 < (writeFsChain (writeFsLayout S (f :: rest) 0) ++
        [writeFsFreeHeader S (writeFsContentSize S (f :: rest))]).length := by
      rw [hA]
      simp
    have hR : writefs_set_content S (f :: rest) =
        writeFsSetNext
          (writeFsChain (writeFsLayout S (f :: rest) 0) ++
            [writeFsFreeHeader S (writeFsContentSize S (f :: rest))])
          ((writeFsChain (writeFsLayout S (f :: rest) 0) ++
            [writeFsFreeHeader S (writeFsContentSize S (f :: rest))]).length - 2)
          (writeFsContentSize S (f :: rest)) := by
      unfold writefs_set_content
      simp only [List.isEmpty_cons, Bool.false_eq_true, if_false]
      rw [if_pos hlt, if_pos hfree, if_pos hfree, if_pos hgt1]
    have hidx : (writeFsChain (writeFsLayout S (f :: rest) 0) ++
        [writeFsFreeHeader S (writeFsContentSize S (f :: rest))]).length - 2 =
        (f :: rest).length - 1 := by
      rw [hA]
      simp
    have hfreeD : (writefs_set_content S (f :: rest)).getD (f :: rest).length
          default = writeFsFreeHeader S (writeFsContentSize S (f :: rest)) := by
      rw [hR, hidx, writeFsSetNext_getD_ne _ _ _ _ (by
        simp only [List.length_cons]
        omega) _]
      rw [show (f :: rest).length = (writeFsChain
        (writeFsLayout S (f :: rest) 0)).length from hlen.symm]
      exact listGetD_append_len _ _ _
    refine ⟨?_, ?_, ?_, ?_, ?_, ?_⟩
    · rw [hR, writeFsSetNext_length, hA]
    · rw [hfreeD]
      rfl
    · rw [hfreeD]
      rfl
    · rw [hfreeD]
      rfl
    · intro i hi
      rw [hR, hidx]
      have hne2 : i ≠ (f :: rest).length - 1 := by
        simp only [List.length_cons] at hi ⊢
        omega
      rw [writeFsSetNext_getD_ne _ _ _ _ hne2, writeFsSetNext_getD_relOffset,
        listGetD_append_lt _ _ _ _ (by rw [hlen]; omega),
        listGetD_append_lt _ _ _ _ (by rw [hlen]; omega),
        writeFsChain_getD_relOffset,
        writeFsChain_getD_next _ _ (by rw [hlen0]; omega)]
    · rw [hR, hidx]
      have h1 : ((writeFsSetNext
          (writeFsChain (writeFsLayout S (f :: rest) 0) ++
            [writeFsFreeHeader S (writeFsContentSize S (f :: rest))])
          ((f :: rest).length - 1)
          (writeFsContentSize S (f :: rest))).getD
            ((f :: rest).length - 1) default).next =
          writeFsContentSize S (f :: rest) := by
        apply writeFsSetNext_getD_eq
        rw [List.length_append, hlen]
        simp only [List.length_cons, List.length_singleton]
        omega
      rw [h1, ← hidx, ← hR, hfreeD]
      rfl
  · -- leftover space at most the threshold: no free block, corrupted chain
    by_cases hgt : 1 < (f :: rest).length
    · have hgt1 : 1 < (writeFsChain (writeFsLayout S (f :: rest) 0)).length := by
        rw [hlen]
        exact hgt
      have hR : writefs_set_content S (f :: rest) =
          writeFsSetNext (writeFsChain (writeFsLayout S (f :: rest) 0))
            ((writeFsChain (writeFsLayout S (f :: rest) 0)).length - 2) 0 := by
        unfold writefs_set_content
        simp only [List.isEmpty_cons, Bool.false_eq_true, if_false]
        rw [if_pos hlt, if_neg hnofree, if_neg hnofree, if_pos hgt1]
      refine ⟨?_, ?_, ?_, fun _ => ?_, ?_⟩
      · rw [hR, writeFsSetNext_length, hlen]
      · rw [hR]
        exact mem_writeFsSetNext (fun x v hx => hx) _ _ _
          (mem_writeFsChain (fun x v hx => hx) _ (writeFsLayout_isFree _ _ _))
      · intro i hi
        rw [hR]
        have hne2 : i ≠ (writeFsChain (writeFsLayout S (f :: rest) 0)).length - 2 := by
          rw [hlen]
          simp only [List.length_cons] at hi ⊢
          omega
        rw [writeFsSetNext_getD_ne _ _ _ _ hne2, writeFsSetNext_getD_relOffset,
          writeFsChain_getD_relOffset,
          writeFsChain_getD_next _ _ (by
            rw [hlen0]
            simp only [List.length_cons] at hi ⊢
            omega)]
      · rw [hR, show (f :: rest).length - 2 =
          (writeFsChain (writeFsLayout S (f :: rest) 0)).length - 2 from by rw [hlen]]
        apply writeFsSetNext_getD_eq
        rw [hlen]
        simp only [List.length_cons] at hgt ⊢
        omega
      · rw [hR]
        have hne2 : (f :: rest).length - 1 ≠
            (writeFsChain (writeFsLayout S (f :: rest) 0)).length - 2 := by
          rw [hlen]
          simp only [List.length_cons] at hgt ⊢
          omega
        rw [writeFsSetNext_getD_ne _ _ _ _ hne2,
          show (f :: rest).length - 1 =
            (writeFsLayout S (f :: rest) 0).length - 1 from by rw [hlen0],
          writeFsChain_getD_last,
          writeFsLayout_getD_next _ _ _ _ (by
            rw [hlen0]
            simp only [List.length_cons]
            omega)]
    · have hgt1 : ¬ 1 < (writeFsChain (writeFsLayout S (f :: rest) 0)).length := by
        rw [hlen]
        exact hgt
      have hR : writefs_set_content S (f :: rest) =
          writeFsChain (writeFsLayout S (f :: rest) 0) := by
        unfold writefs_set_content
        simp only [List.isEmpty_cons, Bool.false_eq_true, if_false]
        rw [if_pos hlt, if_neg hnofree, if_neg hnofree, if_neg hgt1]
      refine ⟨?_, ?_, ?_, fun hq => absurd hq hgt, ?_⟩
      · rw [hR, hlen]
      · rw [hR]
        exact mem_writeFsChain (fun x v hx => hx) _ (writeFsLayout_isFree _ _ _)
      · intro i hi
        exact absurd hi (by simp only [List.length_cons] at hgt ⊢; omega)
      · rw [hR,
          show (f :: rest).length - 1 =
            (writeFsLayout S (f :: rest) 0).length - 1 from by rw [hlen0],
          writeFsChain_getD_last,
          writeFsLayout_getD_next _ _ _ _ (by
            rw [hlen0]
            simp only [List.length_cons]
            omega)]
  · -- content fills the section: sentinel-terminated chain
    have hR : writefs_set_content S (f :: rest) =
        writeFsSetNext (writeFsChain (writeFsLayout S (f :: rest) 0))
          ((writeFsChain (writeFsLayout S (f :: rest) 0)).length - 1)
          0xffffffff := by
      unfold writefs_set_content
      simp [hge]
    rw [hR]
    refine ⟨?_, ?_, ?_, ?_⟩
    · rw [writeFsSetNext_length, hlen]
    · exact mem_writeFsSetNext (fun x v hx => hx) _ _ _
        (mem_writeFsChain (fun x v hx => hx) _ (writeFsLayout_isFree _ _ _))
    · intro i hi
      have hne2 : i ≠ (writeFsChain (writeFsLayout S (f :: rest) 0)).length - 1 := by
        rw [hlen]
        simp only [List.length_cons] at hi ⊢
        omega
      rw [writeFsSetNext_getD_ne _ _ _ _ hne2, writeFsSetNext_getD_relOffset,
        writeFsChain_getD_relOffset,
        writeFsChain_getD_next _ _ (by rw [hlen0]; exact hi)]
    · have hfix : (f :: rest).length - 1 =
          (writeFsChain (writeFsLayout S (f :: rest) 0)).length - 1 := by rw [hlen]
      rw [hfix]
      exact writeFsSetNext_getD_eq _ _ _ (by rw [hlen]; simp)

/-- Witness for C3 (amended), exercising the free-block regime at section
size 3000 with one 10-byte file (content 128 bytes, 2872 bytes left) and
the exact-fit regime at the spec's scenario (4096 with files of 10 and
4100 bytes). -/
theorem writefs_next_chain_witness :
    ((writefs_set_content 3000 [10]).getD 0 default).next =
      ((writefs_set_content 3000 [10]).getD 1 default).relOffset ∧
    ((writefs_set_content 3000 [10]).getD 1 default).isFree = true ∧
    ((writefs_set_content 4096 [10, 4100]).getD 1 default).next = 0xffffffff := by
  have h1 := (writefs_next_chain 3000 [10] (by decide)).1 (by decide) |>.1 (by decide)
  have h2 := (writefs_next_chain 4096 [10, 4100] (by decide)).2 (by decide)
  exact ⟨h1.2.2.2.2.2, h1.2.1, h2.2.2.2⟩

/-! ### ROM layout lemmas -/

theorem placeDataBlocks_map_fst (l : List BinSegment) (cur : Nat) :
    (placeDataBlocks l cur).map Prod.fst = l := by
  induction l generalizing cur with
  | nil => rfl
  | cons s rest ih => simp [placeDataBlocks, ih]

theorem placeDataBlocks_length (l : List BinSegment) (cur : Nat) :
    (placeDataBlocks l cur).length = l.length := by
  induction l generalizing cur with
  | nil => rfl
  | cons s rest ih => simp [placeDataBlocks, ih]

theorem placeDataBlocks_contiguous (l : List BinSegment) (cur : Nat) :
    ∀ j, j + 1 < l.length →
      ((placeDataBlocks l cur).getD (j + 1) default).2 =
        ((placeDataBlocks l cur).getD j default).2 +
          ((placeDataBlocks l cur).getD j default).1.dataSize := by
  induction l generalizing cur with
  | nil => intro j hj; simp at hj
  | cons s rest ih =>
    intro j hj
    cases j with
    | zero =>
      cases rest with
      | nil => simp at hj
      | cons s2 rest2 => rfl
    | succ j2 =>
      have := ih (cur + s.dataSize) j2 (by simpa using hj)
      simpa [placeDataBlocks] using this

theorem padToAlign_mod (cur align : Nat) (halign : 0 < align) :
    padToAlign cur align % align = 0 := by
  by_cases hr : cur % align = 0
  · simp [padToAlign, hr, Nat.add_mod, Nat.sub_zero, Nat.mod_self]
  · have hM := Nat.mod_lt cur halign
    have h1 : (align - cur % align) % align = align - cur % align :=
      Nat.mod_eq_of_lt (by omega)
    have hd := Nat.div_add_mod cur align
    have h2 : cur + (align - cur % align) % align = align * (cur / align) + align := by
      omega
    unfold padToAlign
    rw [h2, ← Nat.mul_succ]
    exact Nat.mul_mod_right _ _

/-- Shared form of claim C1 over the generic layout: with at least one XIP
segment, the emitted data blocks are exactly the XIP segments followed by
the static segments (each group in original order), the first data block
starts on an XIP-page boundary, and all data blocks are contiguous. -/
theorem romLayout_xip (H SH offset vaddr pageSize : Nat) (hpg : 0 < pageSize)
    (segs : List BinSegment)
    (hx : segs.filter (fun s => is_xip_segment vaddr s.base) ≠ []) :
    (romLayoutBlocks H SH offset vaddr pageSize segs).map Prod.fst =
      segs.filter (fun s => is_xip_segment vaddr s.base) ++
        segs.filter (fun s => ¬ is_xip_segment vaddr s.base) ∧
    ((romLayoutBlocks H SH offset vaddr pageSize segs).getD 0 default).2 % pageSize
      = 0 ∧
    (∀ j, j + 1 < (romLayoutBlocks H SH offset vaddr pageSize segs).length →
      ((romLayoutBlocks H SH offset vaddr pageSize segs).getD (j + 1) default).2 =
        ((romLayoutBlocks H SH offset vaddr pageSize segs).getD j default).2 +
          ((romLayoutBlocks H SH offset vaddr pageSize segs).getD j default).1.dataSize) := by
  have hxlen : 0 < (segs.filter (fun s => is_xip_segment vaddr s.base)).length :=
    List.length_pos.mpr hx
  unfold romLayoutBlocks
  simp only [hxlen, if_pos]
  obtain ⟨x0, xrest, hxeq⟩ :=
    List.exists_cons_of_ne_nil hx
  rw [hxeq]
  refine ⟨?_, ?_, ?_⟩
  · rw [placeDataBlocks_map_fst]
  · rw [List.cons_append]
    simp only [placeDataBlocks, List.getD_cons_zero]
    exact padToAlign_mod _ _ hpg
  · intro j hj
    apply placeDataBlocks_contiguous
    rwa [placeDataBlocks_length] at hj

/-- Claim C1: for every ROM (`rom_v2.py`) or app-binary (`app_bin.py`)
section built from a binary with at least one XIP segment, `set_content`
emits the data blocks as all XIP segments followed by all static segments,
each group preserving original relative order, with the first XIP segment's
data starting at a multiple of the XIP page size `512 << page_size_cmd` and
all data blocks adjacent, so the XIP blocks occupy one contiguous range
starting on an XIP-page boundary. -/
theorem rom_app_xip_contiguity :
    (∀ offset pageSizeCmd vaddr segs,
      segs.filter (fun s => is_xip_segment vaddr s.base) ≠ [] →
      xipContiguousLayout vaddr (512 <<< pageSizeCmd) segs
        (rom_set_content_blocks offset pageSizeCmd vaddr segs)) ∧
    (∀ offset segs,
      segs.filter (fun s => is_xip_segment 0x20000000 s.base) ≠ [] →
      xipContiguousLayout 0x20000000 (512 <<< 0) segs
        (app_bin_set_content_blocks offset segs)) := by
  have hpos : ∀ c : Nat, 0 < 512 <<< c := by
    intro c
    rw [Nat.shiftLeft_eq]
    positivity
  constructor
  · intro offset pageSizeCmd vaddr segs hx
    exact romLayout_xip romHeaderSize romSegmentHeaderSize offset vaddr
      (512 <<< pageSizeCmd) (hpos pageSizeCmd) segs hx
  · intro offset segs hx
    exact romLayout_xip romHeaderSize appSectionHeaderSize offset 0x20000000
      (512 <<< 0) (hpos 0) segs hx

/-- Witness for C1: one XIP segment at the XIP virtual address and one
static segment, on both codecs. -/
theorem rom_app_xip_contiguity_witness :
    xipContiguousLayout 0x20000000 (512 <<< 0)
      [⟨0x20000000, 100⟩, ⟨0x1c000000, 50⟩]
      (rom_set_content_blocks 0x1000 0 0x20000000
        [⟨0x20000000, 100⟩, ⟨0x1c000000, 50⟩]) ∧
    xipContiguousLayout 0x20000000 (512 <<< 0)
      [⟨0x20000000, 100⟩, ⟨0x1c000000, 50⟩]
      (app_bin_set_content_blocks 0x1000
        [⟨0x20000000, 100⟩, ⟨0x1c000000, 50⟩]) :=
  ⟨rom_app_xip_contiguity.1 0x1000 0 0x20000000 _ (by decide),
   rom_app_xip_contiguity.2 0x1000 _ (by decide)⟩

theorem ptByteField_replicate_none (d i : Nat) :
    ptByteField (List.replicate d none) i = [] := by
  induction d generalizing i with
  | zero => rfl
  | succ d2 ih => simpa [List.replicate, ptByteField] using ih (i + 1)

theorem ptByteField_eq_realBytes (sections : List PtSection) (d i : Nat) :
    ptByteField (sections.map some ++ List.replicate d none) i =
      ptRealBytes sections i := by
  induction sections generalizing i with
  | nil => simpa [ptRealBytes] using ptByteField_replicate_none d i
  | cons s rest ih => simp [ptByteField, ptRealBytes, ih]

/-- Chaining a CRC across concatenated buffers. -/
theorem compute_crc_append (seed : Nat) (a b : List Nat) :
    compute_crc seed (a ++ b) = compute_crc (compute_crc seed a) b := by
  unfold compute_crc
  exact List.foldl_append _ _ _ _

/-- Counterexample to claim C2 as stated: for a table with one real section
and one placeholder record (requested table budget 81 bytes), the stored
`crc_table` is not the CRC32 of the real record followed by the zero-filled
placeholder record, and the stored `crc_header` is not the CRC32 of all
header fields excluding only `crc_header` (which would include the padding
byte). -/
theorem pt_finalize_crc_counterexample :
    (pt_finalize [⟨1, 0x83, 0x1000, 0x2000, 0, 0, 2⟩] (some 81)).crcTable ≠
      compute_crc 0xFFFFFFFF
        (ptRealBytes [⟨1, 0x83, 0x1000, 0x2000, 0, 0, 2⟩] 0 ++
          List.replicate 32 0) ∧
    (pt_finalize [⟨1, 0x83, 0x1000, 0x2000, 0, 0, 2⟩] (some 81)).crcHeader ≠
      compute_crc 0xFFFFFFFF
        (ptHeaderCrcBytes 1 2
          (pt_finalize [⟨1, 0x83, 0x1000, 0x2000, 0, 0, 2⟩] (some 81)).crcTable
          ++ [0]) := by
  have hstored : (pt_finalize [⟨1, 0x83, 0x1000, 0x2000, 0, 0, 2⟩]
      (some 81)).crcTable = 3194003038 := by decide
  have h1 : compute_crc 0xFFFFFFFF
      (ptRealBytes [⟨1, 0x83, 0x1000, 0x2000, 0, 0, 2⟩] 0) = 3194003038 := by decide
  have h2 : compute_crc 3194003038 (List.replicate 32 0) = 413681994 := by decide
  have hhdr : (pt_finalize [⟨1, 0x83, 0x1000, 0x2000, 0, 0, 2⟩]
        (some 81)).crcHeader =
      compute_crc 0xFFFFFFFF (ptHeaderCrcBytes 1 2
        (pt_finalize [⟨1, 0x83, 0x1000, 0x2000, 0, 0, 2⟩] (some 81)).crcTable) := rfl
  constructor
  · rw [hstored, compute_crc_append, h1, h2]
    decide
  · rw [hhdr, hstored]
    decide

/-- Claim C2 (amended): `finalize` stores in `crc_table` the CRC32 (seed
0xFFFFFFFF) of the concatenation of the real per-section records only — the
zero-filled placeholder records are excluded — and stores in `crc_header`
the CRC32 of the header fields up to and including `crc_table` (magic,
version, nb_entries, nb_entries_max, flags, crc_table), excluding both
`crc_header` itself and the trailing padding byte. -/
theorem pt_finalize_crc (sections : List PtSection) (requestSize : Option Nat) :
    (pt_finalize sections requestSize).crcTable =
      compute_crc 0xFFFFFFFF (ptRealBytes sections 0) ∧
    (pt_finalize sections requestSize).crcHeader =
      compute_crc 0xFFFFFFFF
        (ptHeaderCrcBytes sections.length
          (sections.length + ptDiff sections.length requestSize)
          (pt_finalize sections requestSize).crcTable) := by
  constructor
  · unfold pt_finalize
    simp only
    rw [ptByteField_eq_realBytes]
  · rfl

theorem natCeil_natCast_div (a b : ℕ) (hb : 0 < b) :
    ⌈(a : ℚ) / (b : ℚ)⌉₊ = (a + b - 1) / b := by
  have hbq : (0 : ℚ) < (b : ℚ) := by exact_mod_cast hb
  have hd := Nat.div_add_mod (a + b - 1) b
  have hm := Nat.mod_lt (a + b - 1) hb
  apply le_antisymm
  · rw [Nat.ceil_le, div_le_iff₀ hbq]
    have h2 : a ≤ (a + b - 1) / b * b := by
      rw [Nat.mul_comm]
      omega
    exact_mod_cast h2
  · rw [Nat.div_le_iff_le_mul_add_pred hb]
    have h := Nat.le_ceil ((a : ℚ) / (b : ℚ))
    rw [div_le_iff₀ hbq] at h
    have h3 : a ≤ ⌈(a : ℚ) / (b : ℚ)⌉₊ * b := by exact_mod_cast h
    rw [Nat.mul_comm] at h3
    omega

/-- Claim C6: the wrapped flag is auto-selected true iff the requested size
is below 1024; the stored `kc_size` is
`36 + floor(s/8) + 16 * ceil(s/384)` when wrapped and `s/8` rounded up to
the next 16-byte multiple when unwrapped; a wrapped key-code of source size
64 gets `kc_size = 60` and its record is padded to a 16-byte multiple by
the `padding1` field. -/
theorem kc_size_rules (s : Nat) :
    kcSelectWrapped none s = decide (s < 1024) ∧
    kcStoredSize true s =
      36 + ⌊(s : ℚ) / (8 : ℚ)⌋₊ + 16 * ⌈(s : ℚ) / (384 : ℚ)⌉₊ ∧
    kcStoredSize false s = (s / 8 + 15) / 16 * 16 ∧
    kcStoredSize true 64 = 60 ∧
    kcRecordSize true 64 % 16 = 0 := by
  refine ⟨?_, ?_, ?_, by decide, by decide⟩
  · unfold kcSelectWrapped
    by_cases h : 1023 < s
    · simp [if_pos h, show ¬ s < 1024 by omega]
    · simp [if_neg h, show s < 1024 by omega]
  · have hfl : ⌊(s : ℚ) / ((8 : ℕ) : ℚ)⌋₊ = s / 8 :=
      Rat.natFloor_natCast_div_natCast s 8
    have hce : ⌈(s : ℚ) / ((384 : ℕ) : ℚ)⌉₊ = (s + 384 - 1) / 384 :=
      natCeil_natCast_div s 384 (by norm_num)
    have h8 : ((8 : ℕ) : ℚ) = (8 : ℚ) := by norm_num
    have h384 : ((384 : ℕ) : ℚ) = (384 : ℚ) := by norm_num
    rw [h8] at hfl
    rw [h384] at hce
    rw [hfl, hce]
    unfold kcStoredSize kc_size_compute
    simp only [if_pos]
    omega
  · unfold kcStoredSize
    simp only [if_neg (by simp : ¬ True = False)]
    by_cases h : s / 8 % 16 ≠ 0 <;> simp [h] <;> omega

/-- Counterexample to claim C7 as stated: a key-code explicitly configured
as unwrapped with requested size 100 (below 1024 and not a multiple of 64)
is emitted without any size-validation error — the check in `set_content`
only runs for explicitly wrapped key-codes. -/
theorem kc_unwrapped_not_validated :
    secret_storage_set_content_kcs [(some false, 100)] = Except.ok [16] ∧
    100 < 1024 ∧ 100 % 64 ≠ 0 :=
  ⟨rfl, by decide, by decide⟩

/-- Claim C7 (amended): the size validation applies to key-codes explicitly
configured as wrapped: for every `kc_list` beginning with an explicitly
wrapped key-code whose requested size is not a multiple of 1024 (when
≥ 1024) or not a multiple of 64 (when < 1024), `set_content` fails with the
size-validation error instead of emitting the key-code. -/
theorem kc_wrapped_size_validation (size : Nat)
    (rest : List (Option Bool × Nat))
    (hbad : (1023 < size ∧ size % 1024 ≠ 0) ∨ (size < 1024 ∧ size % 64 ≠ 0)) :
    secret_storage_set_content_kcs ((some true, size) :: rest) =
      Except.error "size is to big for wrapping, max is 4096" := by
  unfold secret_storage_set_content_kcs kcProcess
  rw [if_pos ⟨rfl, hbad⟩]

/-- Witness for C7 (amended): an explicitly wrapped key-code of size 100. -/
theorem kc_wrapped_size_validation_witness :
    secret_storage_set_content_kcs [(some true, 100)] =
      Except.error "size is to big for wrapping, max is 4096" :=
  kc_wrapped_size_validation 100 [] (by decide)

theorem metaResolveStep_eq (sections : List (String × Nat))
    (name : Option String) :
    metaResolveStep sections name 0xDEADBEEF =
      (name.bind (get_section_by_name sections)).getD 0xDEADBEEF := by
  cases name with
  | none => rfl
  | some nm =>
    cases h : get_section_by_name sections nm <;>
      simp [metaResolveStep, h]

/-- Claim C8: after `finalize` each pointer field equals the offset of the
flash section whose name matches the configured property when one exists,
and the sentinel 0xDEADBEEF when the property is unset or unresolved; and
the meta table is never considered empty. -/
theorem meta_finalize_pointers (sections : List (String × Nat))
    (props : MetaProps) :
    (meta_finalize sections props).ssbl_a_addr =
      (props.ssbl_a.bind (get_section_by_name sections)).getD 0xDEADBEEF ∧
    (meta_finalize sections props).ssbl_b_addr =
      (props.ssbl_b.bind (get_section_by_name sections)).getD 0xDEADBEEF ∧
    (meta_finalize sections props).pt_a_addr =
      (props.pt_a.bind (get_section_by_name sections)).getD 0xDEADBEEF ∧
    (meta_finalize sections props).pt_b_addr =
      (props.pt_b.bind (get_section_by_name sections)).getD 0xDEADBEEF ∧
    meta_is_empty = false :=
  ⟨metaResolveStep_eq sections props.ssbl_a,
   metaResolveStep_eq sections props.ssbl_b,
   metaResolveStep_eq sections props.pt_a,
   metaResolveStep_eq sections props.pt_b, rfl⟩

theorem volAppEntriesLoop_eq (l : List (Nat × VtSection)) :
    volAppEntriesLoop l =
      (l.filter (fun p => p.2.ptype ≠ 2)).map (fun p => mkVolEntry p.1 p.2) := by
  induction l with
  | nil => rfl
  | cons p rest ih =>
    obtain ⟨i, s⟩ := p
    by_cases h : s.ptype ≠ 2 <;>
      simp [volAppEntriesLoop, List.filter_cons, h, ih]

theorem volFactoryEntriesLoop_eq (l : List (Nat × VtSection)) :
    volFactoryEntriesLoop l =
      (l.filter (fun p => p.2.ptype = 2)).map (fun p => mkVolEntry p.1 p.2) := by
  induction l with
  | nil => rfl
  | cons p rest ih =>
    obtain ⟨i, s⟩ := p
    by_cases h : s.ptype = 2 <;>
      simp [volFactoryEntriesLoop, List.filter_cons, h, ih]

/-- Claim C9: with no explicit `volumes` property, exactly two volumes are
built: "app" with uuid 0 and the bootable flag, holding one entry (with the
section's index as uuid) per section whose partition type is not the
factory/meta type 0x02, and "factory" with uuid 1 holding the remaining
sections of type 0x02; each volume reserves exactly 4 zero-filled
placeholder entries, and the partition counters match. -/
theorem volumes_default_structure (sections : List VtSection) :
    (volumes_default_init sections).volumes_list_length = 2 ∧
    (volumes_default_init sections).volume_app.uuid = 0 ∧
    (volumes_default_init sections).volume_app.flags = 1 ∧
    (volumes_default_init sections).volume_factory.uuid = 1 ∧
    (volumes_default_init sections).volume_app_entries =
      ((sections.enum.filter (fun p => p.2.ptype ≠ 2)).map
        (fun p => mkVolEntry p.1 p.2)) ++ List.replicate 4 zeroVolEntry ∧
    (volumes_default_init sections).volume_factory_entries =
      ((sections.enum.filter (fun p => p.2.ptype = 2)).map
        (fun p => mkVolEntry p.1 p.2)) ++ List.replicate 4 zeroVolEntry ∧
    (volumes_default_init sections).volume_app.nb_partitions =
      (sections.enum.filter (fun p => p.2.ptype ≠ 2)).length ∧
    (volumes_default_init sections).volume_app.max_nb_partitions =
      (sections.enum.filter (fun p => p.2.ptype ≠ 2)).length + 4 ∧
    (volumes_default_init sections).volume_factory.nb_partitions =
      (sections.enum.filter (fun p => p.2.ptype = 2)).length ∧
    (volumes_default_init sections).volume_factory.max_nb_partitions =
      (sections.enum.filter (fun p => p.2.ptype = 2)).length + 4 ∧
    zeroVolEntry.uuid = 0 ∧ zeroVolEntry.flags = 0 ∧
    zeroVolEntry.label = List.replicate 16 0 := by
  have ha := volAppEntriesLoop_eq sections.enum
  have hf := volFactoryEntriesLoop_eq sections.enum
  unfold volumes_default_init
  refine ⟨rfl, rfl, rfl, rfl, ?_, ?_, ?_, ?_, ?_, ?_, rfl, rfl, by decide⟩
  · simp [ha]
  · simp [hf]
  · simp [ha]
  · simp [ha]
  · simp [hf]
  · simp [hf]

/-- Claim C10: `is_empty` returns true whenever `boot` is false, even with
a binary configured; it returns false exactly when a binary is present and
`boot` is true. -/
theorem rom_is_empty_boot (binary : Option RomBinary) (boot : Bool) :
    (boot = false → rom_is_empty binary boot = true) ∧
    (rom_is_empty binary boot = false ↔ binary.isSome ∧ boot = true) := by
  cases binary <;> cases boot <;> simp [rom_is_empty]

/-- Witness for C10: a present binary with `boot = false` is still empty. -/
theorem rom_is_empty_boot_witness :
    rom_is_empty (some ⟨0x1c010100, [⟨0x1c000000, 256⟩]⟩) false = true :=
  (rom_is_empty_boot (some ⟨0x1c010100, [⟨0x1c000000, 256⟩]⟩) false).1 rfl

end Gvrun

